import Mathlib

/-!
# UrbanNexus / VeritAI smart-city governance engine: formal model

A shallow embedding of the governed decision-orchestration engine described
in the repository (Gate Engine critic/validator, Synthesizer, bounded
loop-back orchestration) together with the UI's SSE parsing and request
guard from the Next.js page component.
-/

namespace SmartCity

/-! ## Data model -/

/-- Modelled from the spec: ordered risk severity `low < medium < high`
(the Pydantic schemas module `veritai-core/schemas` is not in the
repository snapshot). -/
inductive Severity
  | low
  | medium
  | high
deriving DecidableEq

/-- Modelled from the spec: ordered risk likelihood `low < medium < high`. -/
inductive Likelihood
  | low
  | medium
  | high
deriving DecidableEq

/-- Modelled from the spec: an Evidence reference
`{title, uri (locator), snippet, source}`. -/
structure Evidence where
  title : String
  uri : String
  snippet : String
  source : String
deriving DecidableEq

/-- Modelled from the spec: a Risk value `{description, severity, likelihood}`. -/
structure Risk where
  description : String
  severity : Severity
  likelihood : Likelihood
deriving DecidableEq

/-- Modelled from the spec: a Requirement value with a `must_have` flag and
an optional stable identifier used for rule matching. -/
structure Requirement where
  description : String
  must_have : Bool
  id : Option String
deriving DecidableEq

/-- Modelled from the spec: a Finding: topic tag, ordered sequence of
Evidence, set of Risk, set of Requirement, optional notes, confidence. -/
structure Finding where
  topic : String
  evidence : List Evidence
  risks : Finset Risk
  requirements : Finset Requirement
  notes : Option String
  confidence : ℚ
deriving DecidableEq

/-- Modelled from the spec: the Case under evaluation (`project_brief`):
sensor capability flags, storage mode and zone identifier. -/
structure ProjectBrief where
  zone : String
  alpr : Bool
  video : Bool
  audio : Bool
  storage : String
deriving DecidableEq

/-- Modelled from the spec: a Control is a
(trigger-predicate-over-Case, required-requirement-tag, hard/soft) tuple;
the control table drives the data-driven Gate Engine rules. -/
structure Control where
  trigger : ProjectBrief → Bool
  tag : String
  hard : Bool

/-- Modelled from the spec: Critique status `ok | revise`. -/
inductive CStatus
  | ok
  | revise
deriving DecidableEq

/-- Modelled from the spec: the Critic output
`{status, missing_requirements, notes}`. -/
structure Critique where
  status : CStatus
  missing_requirements : List String
  notes : Option String
deriving DecidableEq

/-- Modelled from the spec: Verdict status `GO | MITIGATE | HOLD`. -/
inductive VStatus
  | GO
  | MITIGATE
  | HOLD
deriving DecidableEq

/-- Modelled from the spec: the Validator output `{status, reason}`. -/
structure Verdict where
  status : VStatus
  reason : String
deriving DecidableEq

/-! ## Gate Engine: Critic -/

/-- Modelled from the spec: the configured evidence minimum (default 3). -/
def MIN_EVIDENCE : Nat := 3

/-- Modelled from the spec: the configured confidence floor (default 0.4). -/
def CONFIDENCE_FLOOR : ℚ := mkRat 2 5

/-- Modelled from the spec: a Requirement satisfies a control when it is
`must_have` and its id or description matches the control's required tag. -/
def requirementMatches (ctl : Control) (r : Requirement) : Bool :=
  r.must_have && (r.id == some ctl.tag || r.description == ctl.tag)

/-- Modelled from the spec: whether the Finding carries the control's
required must-have Requirement. -/
def hasRequiredControl (f : Finding) (ctl : Control) : Bool :=
  decide (∃ r ∈ f.requirements, requirementMatches ctl r = true)

/-- Modelled from the spec: a control fails when its trigger predicate is
true over the Case and the required Requirement is absent. -/
def control_fails (f : Finding) (pb : ProjectBrief) (ctl : Control) : Bool :=
  ctl.trigger pb && !(hasRequiredControl f ctl)

/-- Modelled from the spec: the helper `check_required_controls` of the
Critic (`veritai-core/protocol/critic.py` is not in the repository
snapshot); it returns the list of missing controls' tags. -/
def check_required_controls (f : Finding) (pb : ProjectBrief)
    (controls : List Control) : List String :=
  (controls.filter (control_fails f pb)).map Control.tag

/-- Modelled from the spec: the Critic (quality gate). Rules in fixed order,
first failing rule short-circuits: evidence minimum, then required
controls, then confidence floor. -/
def critic (controls : List Control) (f : Finding) (pb : ProjectBrief) : Critique :=
  if f.evidence.length < MIN_EVIDENCE then
    { status := .revise, missing_requirements := ["insufficient_evidence"], notes := none }
  else
    let missing := check_required_controls f pb controls
    if missing = [] then
      if f.confidence < CONFIDENCE_FLOOR then
        { status := .revise, missing_requirements := ["low_confidence"],
          notes := some "confidence below floor; revision recommended" }
      else
        { status := .ok, missing_requirements := [], notes := none }
    else
      { status := .revise, missing_requirements := missing, notes := none }

/-! ## Gate Engine: Validator -/

/-- Modelled from the spec: a Risk is an unresolved high-severity risk when
its severity is high and its likelihood is not low. -/
def high_unmitigated (r : Risk) : Bool :=
  r.severity == .high && r.likelihood != .low

/-- Modelled from the spec: whether any Risk in the set is an unresolved
high-severity risk. -/
def any_high_risk (rs : Finset Risk) : Bool :=
  decide (∃ r ∈ rs, high_unmitigated r = true)

/-- Modelled from the spec: the Validator (hard governance gate,
`veritai-core/protocol/validator.py` is not in the repository snapshot).
A revise Critique yields HOLD; otherwise a failing hard control yields
HOLD, a failing soft control MITIGATE, an unresolved high-severity risk
MITIGATE, and GO otherwise. -/
def validator (controls : List Control) (f : Finding) (cr : Critique)
    (pb : ProjectBrief) : Verdict :=
  if cr.status = CStatus.revise then
    { status := .HOLD,
      reason := "quality gate failed: " ++ String.intercalate ", " cr.missing_requirements }
  else
    match controls.find? (fun ctl => control_fails f pb ctl && ctl.hard) with
    | some ctl => { status := .HOLD, reason := "missing required control: " ++ ctl.tag }
    | none =>
      match controls.find? (control_fails f pb) with
      | some ctl => { status := .MITIGATE, reason := "missing recommended control: " ++ ctl.tag }
      | none =>
        if any_high_risk f.risks then
          { status := .MITIGATE, reason := "unresolved high-severity risk" }
        else
          { status := .GO, reason := "all gates satisfied" }

/-- Modelled from the spec: the registered hard control — ALPR present
requires a CJIS / criminal-justice data handling requirement. -/
def cjis_control : Control :=
  { trigger := fun pb => pb.alpr, tag := "criminal-justice-data-handling", hard := true }

/-- Modelled from the spec: the registered soft control — video or audio
present requires a public notice and retention schedule requirement. -/
def media_control : Control :=
  { trigger := fun pb => pb.video || pb.audio, tag := "public-notice-and-retention", hard := false }

/-- Modelled from the spec: the default control table. -/
def default_controls : List Control := [cjis_control, media_control]

/-! ## Synthesizer -/

/-- Modelled from the spec: numeric rank of a Verdict status under the
severity ordering HOLD > MITIGATE > GO. -/
def sev : VStatus → Nat
  | .GO => 0
  | .MITIGATE => 1
  | .HOLD => 2

/-- Modelled from the spec: the more severe of two Verdict statuses. -/
def vmax (a b : VStatus) : VStatus :=
  if sev b ≤ sev a then a else b

/-- Modelled from the spec: overall status = max severity across all
Verdicts (`veritai-core/orchestration/synthesis.py` is not in the
repository snapshot). -/
def overall_status (pairs : List (Finding × Verdict)) : VStatus :=
  pairs.foldr (fun p acc => vmax p.2.status acc) .GO

/-- Modelled from the spec: union of all Risks across Findings,
deduplicated. -/
def combined_risks (pairs : List (Finding × Verdict)) : Finset Risk :=
  pairs.foldr (fun p acc => p.1.risks ∪ acc) ∅

/-- Modelled from the spec: union of all Requirements across Findings,
deduplicated. -/
def combined_requirements (pairs : List (Finding × Verdict)) : Finset Requirement :=
  pairs.foldr (fun p acc => p.1.requirements ∪ acc) ∅

/-- Modelled from the spec: overall confidence = minimum confidence across
all Findings (pessimistic default aggregation). -/
def overall_confidence (pairs : List (Finding × Verdict)) : ℚ :=
  pairs.foldr (fun p acc => min p.1.confidence acc) 1

/-- Modelled from the spec: the Human Review Signal policy — review is
needed iff the overall status is HOLD, or it is MITIGATE and some combined
Risk has high severity with likelihood other than low. -/
def needs_human_review (pairs : List (Finding × Verdict)) : Bool :=
  decide (overall_status pairs = .HOLD) ||
    (decide (overall_status pairs = .MITIGATE) && any_high_risk (combined_risks pairs))

/-- Modelled from the spec: the templated human-review note keyed by the
triggering condition. -/
def human_review_note (pairs : List (Finding × Verdict)) : Option String :=
  if overall_status pairs = .HOLD then
    some "Project is on hold due to unresolved high risk or missing required controls. Recommend review by legal and public safety stakeholders."
  else if overall_status pairs = .MITIGATE ∧ any_high_risk (combined_risks pairs) = true then
    some "High severity risks remain under a MITIGATE decision. Recommend review before approval."
  else
    none

/-- Modelled from the spec: the DecisionBrief — the terminal artifact of a
session. -/
structure DecisionBrief where
  project_brief : ProjectBrief
  findings : Finset Finding
  combined_risks : Finset Risk
  combined_requirements : Finset Requirement
  overall_decision : VStatus
  overall_confidence : ℚ
  needs_human_review : Bool
  human_review_note : Option String
deriving DecidableEq

/-- Modelled from the spec: the Synthesis node — pure aggregation of the
set of (Finding, Verdict) pairs into one DecisionBrief. -/
def synthesize (pb : ProjectBrief) (pairs : List (Finding × Verdict)) : DecisionBrief :=
  { project_brief := pb
    findings := (pairs.map Prod.fst).toFinset
    combined_risks := combined_risks pairs
    combined_requirements := combined_requirements pairs
    overall_decision := overall_status pairs
    overall_confidence := overall_confidence pairs
    needs_human_review := needs_human_review pairs
    human_review_note := human_review_note pairs }

/-! ## Orchestrator loop-back -/

/-- Modelled from the spec: the configured per-topic retry maximum
(default 1 retry). -/
def MAX_RETRIES : Nat := 1

/-- Modelled from the spec: the Verdict the Gate Engine produces for the
Finding an Evaluator emits on its n-th attempt; `evaluator n` is the
Finding of attempt n (`veritai-core/orchestration/graph.py` is not in the
repository snapshot). -/
def verdict_at (controls : List Control) (pb : ProjectBrief)
    (evaluator : Nat → Finding) (n : Nat) : Verdict :=
  validator controls (evaluator n) (critic controls (evaluator n) pb) pb

/-- Modelled from the spec: the bounded loop-back of one topic — while the
Verdict is HOLD and retries remain, re-invoke the Evaluator; once the
budget is exhausted the HOLD Verdict is accepted as final. Returns the
final (Finding, Verdict) pair that flows into Synthesis. -/
def run_topic_pair (controls : List Control) (pb : ProjectBrief)
    (evaluator : Nat → Finding) : Nat → Nat → Finding × Verdict
  | attempt, 0 => (evaluator attempt, verdict_at controls pb evaluator attempt)
  | attempt, budget + 1 =>
    let v := verdict_at controls pb evaluator attempt
    if v.status = .HOLD then
      run_topic_pair controls pb evaluator (attempt + 1) budget
    else
      (evaluator attempt, v)

/-- Modelled from the spec: a whole session — every topic runs its bounded
loop-back and the final pairs flow into Synthesis, producing the terminal
DecisionBrief (state DONE). -/
def run_session (controls : List Control) (pb : ProjectBrief)
    (topics : List (Nat → Finding)) : DecisionBrief :=
  synthesize pb (topics.map (fun ev => run_topic_pair controls pb ev 0 MAX_RETRIES))

/-! ## UI embedding: SSE parsing loop of `runAnalysis` -/

/-- The SSE parsing loop of `runAnalysis` splits the buffered byte stream
on blank lines; this mirrors the JavaScript `buffer.split(sep)` for the
two-character separator of two newlines, scanning left to right. JS
strings are modelled as lists of characters. -/
def split_events : List Char → List (List Char)
  | [] => [[]]
  | [c] => [[c]]
  | c1 :: c2 :: rest =>
    if c1 = '\n' ∧ c2 = '\n' then
      [] :: split_events rest
    else
      match split_events (c2 :: rest) with
      | [] => [[c1]]
      | l :: ls => (c1 :: l) :: ls

/-- The six-character prefix the SSE loop recognizes (`'data: '`). -/
def data_tag : List Char := "data: ".toList

/-- One line of the SSE loop: a complete line prefixed with `data: ` has
its payload JSON-parsed (parsing is modelled by the `parse` parameter,
standing for `JSON.parse`); a successful parse is appended to the events
list, a failed parse is skipped (the `catch` branch only logs). -/
def process_line {E : Type} (parse : String → Option E)
    (events : List E) (line : List Char) : List E :=
  if line.take 6 = data_tag then
    match parse (String.mk (line.drop 6)) with
    | some e => events ++ [e]
    | none => events
  else events

/-- One read of the SSE loop (`runAnalysis`, lines 69–88 of the page
component): the chunk is appended to the buffer, the buffer is split on
blank lines, the last (possibly incomplete) part is kept as the new
buffer, and every complete line is processed in order. -/
def process_chunk {E : Type} (parse : String → Option E)
    (st : List Char × List E) (chunk : List Char) : List Char × List E :=
  let parts := split_events (st.1 ++ chunk)
  (parts.getLastD [], parts.dropLast.foldl (process_line parse) st.2)

/-- The whole SSE read loop of `runAnalysis` over the sequence of decoded
chunks, starting from an empty buffer and an empty events list. -/
def run_sse {E : Type} (parse : String → Option E)
    (chunks : List (List Char)) : List Char × List E :=
  chunks.foldl (process_chunk parse) ([], [])

/-- The event, if any, contributed by one complete line: the payload of a
`data: `-prefixed line whose payload parses. -/
def data_payload {E : Type} (parse : String → Option E)
    (line : List Char) : Option E :=
  if line.take 6 = data_tag then parse (String.mk (line.drop 6)) else none

/-! ## UI embedding: `runAnalysis` guard and payload, button state -/

/-- A strategic goal of the UI sidebar. -/
structure Goal where
  type : String
  description : String
  priority : String
  enabled : Bool
deriving DecidableEq

/-- A selectable zone. -/
structure Zone where
  zone_id : String
  name : String
  description : String
deriving DecidableEq

/-- The request body `runAnalysis` posts to `/analyze/v2`. -/
structure AnalyzePayload where
  zone_id : String
  goals : List Goal
  constraints : List String
deriving DecidableEq

/-- The payload built by `runAnalysis` for a selected zone: the zone's id,
only the enabled goals, and empty constraints. -/
def build_payload (z : Zone) (goals : List Goal) : AnalyzePayload :=
  { zone_id := z.zone_id, goals := goals.filter (fun g => g.enabled), constraints := [] }

/-- The guard of `runAnalysis`: with no selected zone it returns early and
no POST is issued (`none`); otherwise the POST carries `build_payload`. -/
def run_analysis_request (selectedZone : Option Zone) (goals : List Goal) :
    Option AnalyzePayload :=
  match selectedZone with
  | none => none
  | some z => some (build_payload z goals)

/-- The `disabled` expression of the Run Analysis button:
`!selectedZone || isAnalyzing`. -/
def run_button_disabled (selectedZone : Option Zone) (isAnalyzing : Bool) : Bool :=
  selectedZone.isNone || isAnalyzing

/-! ## Concrete fixtures used by witnesses -/

/-- A concrete evidence item. -/
def ev1 : Evidence := ⟨"NIST AI RMF 1.0", "gs://kb/nist", "risk framing", "policies"⟩

/-- A concrete evidence item. -/
def ev2 : Evidence := ⟨"Florida Sunshine Law", "gs://kb/sunshine", "public records", "policies"⟩

/-- A concrete evidence item. -/
def ev3 : Evidence := ⟨"CJIS Security Policy", "gs://kb/cjis", "ALPR data", "policies"⟩

/-- A concrete high-severity, medium-likelihood risk. -/
def risk_high : Risk := ⟨"over-collection of PII", .high, .medium⟩

/-- A concrete project brief: video and audio sensors, hybrid storage. -/
def brief_video : ProjectBrief :=
  { zone := "Mizner", alpr := false, video := true, audio := true, storage := "hybrid" }

/-- A concrete finding carrying the notice-and-retention requirement. -/
def finding_ok : Finding :=
  { topic := "public_safety", evidence := [ev1, ev2, ev3], risks := {risk_high},
    requirements := {⟨"public notice and retention schedule", true,
      some "public-notice-and-retention"⟩},
    notes := none, confidence := mkRat 9 10 }

/-- A concrete finding with a single evidence item. -/
def finding_short : Finding :=
  { topic := "public_safety", evidence := [ev1], risks := ∅, requirements := ∅,
    notes := none, confidence := mkRat 9 10 }

/-- A concrete finding with three evidence items and no requirements. -/
def finding_bare : Finding :=
  { topic := "public_safety", evidence := [ev1, ev2, ev3], risks := ∅, requirements := ∅,
    notes := none, confidence := mkRat 9 10 }

/-- A concrete MITIGATE verdict. -/
def verdict_mitigate : Verdict :=
  ⟨.MITIGATE, "missing recommended control: public-notice-and-retention"⟩

/-- A concrete HOLD verdict. -/
def verdict_hold : Verdict := ⟨.HOLD, "quality gate failed: insufficient_evidence"⟩

/-- A concrete privacy finding with a low confidence. -/
def finding_privacy : Finding :=
  { topic := "privacy", evidence := [ev2, ev3, ev1],
    risks := {⟨"insufficient notice to the public", .medium, .medium⟩},
    requirements := ∅, notes := none, confidence := mkRat 1 2 }

end SmartCity

namespace SmartCity

/-! ## Gate Engine theorems -/

/-- Claim C2: a Finding with fewer than MIN_EVIDENCE evidence items makes
the Critic return revise with missing list `["insufficient_evidence"]`,
regardless of the control table, the requirements, or the confidence:
the evidence rule is checked first and short-circuits. -/
theorem critic_insufficient_evidence (controls : List Control) (f : Finding)
    (pb : ProjectBrief) (h : f.evidence.length < MIN_EVIDENCE) :
    critic controls f pb =
      { status := .revise, missing_requirements := ["insufficient_evidence"],
        notes := none } := by
  unfold critic
  rw [if_pos h]

/-- Witness for C2 at a concrete one-evidence finding. -/
theorem critic_insufficient_evidence_w :
    finding_short.evidence.length < MIN_EVIDENCE ∧
      critic default_controls finding_short brief_video =
        { status := .revise, missing_requirements := ["insufficient_evidence"],
          notes := none } :=
  ⟨by decide, critic_insufficient_evidence default_controls finding_short brief_video (by decide)⟩

/-- Claim C3: the Validator returns HOLD exactly when the Critique is
revise or some hard control is triggered with its required must-have
Requirement absent, and in the revise case the reason is the quality-gate
message carrying the missing list. -/
theorem validator_hold_iff (controls : List Control) (f : Finding) (cr : Critique)
    (pb : ProjectBrief) :
    ((validator controls f cr pb).status = .HOLD ↔
      (cr.status = .revise ∨
        ∃ ctl ∈ controls, ctl.hard = true ∧ ctl.trigger pb = true ∧
          hasRequiredControl f ctl = false)) ∧
    (cr.status = .revise →
      (validator controls f cr pb).reason =
        "quality gate failed: " ++ String.intercalate ", " cr.missing_requirements) := by
  by_cases hcr : cr.status = CStatus.revise
  · constructor
    · simp [validator, hcr]
    · intro _; simp [validator, hcr]
  · refine ⟨?_, fun h => absurd h hcr⟩
    unfold validator
    rw [if_neg hcr]
    rcases h1 : controls.find? (fun ctl => control_fails f pb ctl && ctl.hard) with _ | ctl
    · have hnone := List.find?_eq_none.mp h1
      rcases h2 : controls.find? (control_fails f pb) with _ | ctl'
      · constructor
        · intro hgo
          by_cases hr : any_high_risk f.risks = true
          · simp [hr] at hgo
          · simp [hr] at hgo
        · rintro (h | ⟨c, hc, hhard, htrig, habs⟩)
          · exact absurd h hcr
          · exact absurd (by simp [control_fails, htrig, habs, hhard]) (hnone c hc)
      · constructor
        · intro h; simp at h
        · rintro (h | ⟨c, hc, hhard, htrig, habs⟩)
          · exact absurd h hcr
          · exact absurd (by simp [control_fails, htrig, habs, hhard]) (hnone c hc)
    · have hmem := List.mem_of_find?_eq_some h1
      have hp := List.find?_some h1
      rw [Bool.and_eq_true] at hp
      obtain ⟨hfail, hhard⟩ := hp
      rw [control_fails, Bool.and_eq_true, Bool.not_eq_true'] at hfail
      constructor
      · intro _; exact Or.inr ⟨ctl, hmem, hhard, hfail.1, hfail.2⟩
      · intro _; rfl

/-- Witness for C3 at a concrete revise Critique. -/
theorem validator_hold_iff_w :
    (validator default_controls finding_bare
        ⟨.revise, ["insufficient_evidence"], none⟩ brief_video).status = .HOLD ∧
    (validator default_controls finding_bare
        ⟨.revise, ["insufficient_evidence"], none⟩ brief_video).reason =
      "quality gate failed: insufficient_evidence" :=
  ⟨(validator_hold_iff default_controls finding_bare
      ⟨.revise, ["insufficient_evidence"], none⟩ brief_video).1.mpr (Or.inl rfl),
   by
    have h := (validator_hold_iff default_controls finding_bare
      ⟨.revise, ["insufficient_evidence"], none⟩ brief_video).2 rfl
    simpa using h⟩

/-- Counterexample to claim C4 as stated: the soft media control is
triggered over the concrete brief and its required Requirement is absent
from the Finding, yet the Validator's Verdict for that Finding and its own
Critique is HOLD, not MITIGATE — the quality gate (a revise Critique) has
already flagged the same missing control. -/
theorem validator_soft_control_cx :
    media_control.trigger brief_video = true ∧
    media_control.hard = false ∧
    hasRequiredControl finding_bare media_control = false ∧
    (validator [media_control] finding_bare
        (critic [media_control] finding_bare brief_video) brief_video).status = .HOLD ∧
    (validator [media_control] finding_bare
        (critic [media_control] finding_bare brief_video) brief_video).status ≠
      .MITIGATE := by
  refine ⟨rfl, rfl, by decide, by decide, by decide⟩

/-- Claim C4 (amended): whenever some registered control is triggered and
its required must-have Requirement is absent, the Verdict is never GO;
it is HOLD whenever that control is hard; and it is MITIGATE when the
Critique is ok and every triggered-and-unmatched control is soft. -/
theorem validator_missing_control_not_go (controls : List Control) (f : Finding)
    (cr : Critique) (pb : ProjectBrief) (ctl : Control)
    (hmem : ctl ∈ controls) (htrig : ctl.trigger pb = true)
    (habs : hasRequiredControl f ctl = false) :
    (validator controls f cr pb).status ≠ .GO ∧
    (ctl.hard = true → (validator controls f cr pb).status = .HOLD) ∧
    (cr.status = .ok →
      (∀ c ∈ controls, c.trigger pb = true → hasRequiredControl f c = false →
        c.hard = false) →
      (validator controls f cr pb).status = .MITIGATE) := by
  have hfails : control_fails f pb ctl = true := by
    simp [control_fails, htrig, habs]
  by_cases hcr : cr.status = CStatus.revise
  · refine ⟨?_, ?_, ?_⟩
    · simp [validator, hcr]
    · intro _; simp [validator, hcr]
    · intro hok _; rw [hok] at hcr; exact absurd hcr (by simp)
  · unfold validator
    rw [if_neg hcr]
    rcases h1 : controls.find? (fun c => control_fails f pb c && c.hard) with _ | c1
    · have hnone := List.find?_eq_none.mp h1
      rcases h2 : controls.find? (control_fails f pb) with _ | c2
      · exact absurd hfails ((List.find?_eq_none.mp h2) ctl hmem)
      · refine ⟨by simp, ?_, fun _ _ => by simp⟩
        intro hhard
        exact absurd (by simp [hfails, hhard]) (hnone ctl hmem)
    · refine ⟨by simp, fun _ => by simp, ?_⟩
      intro _ hsoft
      have hp := List.find?_some h1
      have hm := List.mem_of_find?_eq_some h1
      rw [Bool.and_eq_true] at hp
      obtain ⟨hfail1, hhard1⟩ := hp
      rw [control_fails, Bool.and_eq_true, Bool.not_eq_true'] at hfail1
      exact absurd hhard1 (by rw [hsoft c1 hm hfail1.1 hfail1.2]; simp)

/-- Witness for the amended C4 at a hard control: ALPR triggered, CJIS
requirement absent, Verdict HOLD and not GO. -/
theorem validator_missing_control_not_go_w :
    ((validator default_controls finding_bare ⟨.ok, [], none⟩
        { zone := "FAU", alpr := true, video := true, audio := false,
          storage := "cloud" }).status ≠ .GO ∧
      (validator default_controls finding_bare ⟨.ok, [], none⟩
        { zone := "FAU", alpr := true, video := true, audio := false,
          storage := "cloud" }).status = .HOLD) := by
  have h := validator_missing_control_not_go default_controls finding_bare
    ⟨.ok, [], none⟩
    { zone := "FAU", alpr := true, video := true, audio := false, storage := "cloud" }
    cjis_control (by simp [default_controls]) (by decide) (by decide)
  exact ⟨h.1, h.2.1 rfl⟩

/-! ## Synthesizer theorems -/

/-- Claim C5: the synthesized DecisionBrief needs human review exactly when
its overall decision is HOLD, or it is MITIGATE and some combined Risk has
high severity with likelihood other than low. -/
theorem synthesis_human_review_iff (pb : ProjectBrief)
    (pairs : List (Finding × Verdict)) :
    (synthesize pb pairs).needs_human_review = true ↔
      ((synthesize pb pairs).overall_decision = .HOLD ∨
        ((synthesize pb pairs).overall_decision = .MITIGATE ∧
          ∃ r ∈ (synthesize pb pairs).combined_risks,
            r.severity = .high ∧ r.likelihood ≠ .low)) := by
  show needs_human_review pairs = true ↔
    (overall_status pairs = .HOLD ∨
      (overall_status pairs = .MITIGATE ∧
        ∃ r ∈ combined_risks pairs, r.severity = .high ∧ r.likelihood ≠ .low))
  simp only [needs_human_review, any_high_risk, high_unmitigated,
    Bool.or_eq_true, Bool.and_eq_true, decide_eq_true_eq, beq_iff_eq,
    bne_iff_ne, ne_eq]

/-- `vmax` keeps its left argument at least as severe. -/
theorem sev_vmax_left : ∀ a b : VStatus, sev a ≤ sev (vmax a b) := by
  intro a b; cases a <;> cases b <;> decide

/-- `vmax` keeps its right argument at least as severe. -/
theorem sev_vmax_right : ∀ a b : VStatus, sev b ≤ sev (vmax a b) := by
  intro a b; cases a <;> cases b <;> decide

/-- `vmax` returns one of its arguments. -/
theorem vmax_choice : ∀ a b : VStatus, vmax a b = a ∨ vmax a b = b := by
  intro a b; cases a <;> cases b <;> decide

/-- GO is the neutral element of `vmax`. -/
theorem vmax_go : ∀ a : VStatus, vmax a .GO = a := by
  intro a; cases a <;> decide

/-- Unfolding `overall_status` over a cons cell. -/
theorem overall_status_cons (p : Finding × Verdict) (ps : List (Finding × Verdict)) :
    overall_status (p :: ps) = vmax p.2.status (overall_status ps) := rfl

/-- The overall status of a non-empty pair list is one of its verdicts. -/
theorem overall_status_mem (pairs : List (Finding × Verdict)) (h : pairs ≠ []) :
    ∃ q ∈ pairs, overall_status pairs = q.2.status := by
  induction pairs with
  | nil => exact absurd rfl h
  | cons p ps ih =>
    rcases ps with _ | ⟨q, rest⟩
    · exact ⟨p, List.mem_cons_self p [], by rw [overall_status_cons]; exact vmax_go _⟩
    · rcases vmax_choice p.2.status (overall_status (q :: rest)) with hc | hc
      · exact ⟨p, List.mem_cons_self p _, by rw [overall_status_cons, hc]⟩
      · obtain ⟨r, hr, heq⟩ := ih (by simp)
        exact ⟨r, List.mem_cons_of_mem p hr, by rw [overall_status_cons, hc, heq]⟩

/-- Every verdict in the pair list is at most as severe as the overall
status. -/
theorem overall_status_ub (pairs : List (Finding × Verdict)) :
    ∀ p ∈ pairs, sev p.2.status ≤ sev (overall_status pairs) := by
  induction pairs with
  | nil => intro p hp; simp at hp
  | cons q ps ih =>
    intro p hp
    rcases List.mem_cons.mp hp with h | h
    · rw [h, overall_status_cons]; exact sev_vmax_left _ _
    · rw [overall_status_cons]
      exact le_trans (ih p h) (sev_vmax_right _ _)

/-- Claim C1: the synthesized overall decision is the most severe status
among the per-topic Verdicts — it is attained by one of them and no
Verdict is strictly more severe. -/
theorem synthesis_overall_most_severe (pb : ProjectBrief)
    (pairs : List (Finding × Verdict)) (h : pairs ≠ []) :
    (∃ q ∈ pairs, (synthesize pb pairs).overall_decision = q.2.status) ∧
    (∀ p ∈ pairs, sev p.2.status ≤ sev (synthesize pb pairs).overall_decision) :=
  ⟨overall_status_mem pairs h, overall_status_ub pairs⟩

/-- Witness for C1 at a concrete two-topic session. -/
theorem synthesis_overall_most_severe_w :
    (∃ q ∈ [(finding_ok, verdict_mitigate), (finding_bare, verdict_hold)],
      (synthesize brief_video
        [(finding_ok, verdict_mitigate), (finding_bare, verdict_hold)]).overall_decision =
        q.2.status) ∧
    (∀ p ∈ [(finding_ok, verdict_mitigate), (finding_bare, verdict_hold)],
      sev p.2.status ≤ sev (synthesize brief_video
        [(finding_ok, verdict_mitigate), (finding_bare, verdict_hold)]).overall_decision) :=
  synthesis_overall_most_severe brief_video
    [(finding_ok, verdict_mitigate), (finding_bare, verdict_hold)] (by simp)

/-- Unfolding `overall_confidence` over a cons cell. -/
theorem overall_confidence_cons (p : Finding × Verdict) (ps : List (Finding × Verdict)) :
    overall_confidence (p :: ps) = min p.1.confidence (overall_confidence ps) := rfl

/-- When every confidence is at most 1, the folded overall confidence of a
non-empty pair list is attained by one of the findings. -/
theorem overall_confidence_mem (pairs : List (Finding × Verdict)) (h : pairs ≠ [])
    (hle : ∀ p ∈ pairs, p.1.confidence ≤ 1) :
    ∃ q ∈ pairs, overall_confidence pairs = q.1.confidence := by
  induction pairs with
  | nil => exact absurd rfl h
  | cons p ps ih =>
    rcases ps with _ | ⟨q, rest⟩
    · refine ⟨p, List.mem_cons_self p [], ?_⟩
      rw [overall_confidence_cons]
      exact min_eq_left (hle p (List.mem_cons_self p []))
    · rcases le_total p.1.confidence (overall_confidence (q :: rest)) with hc | hc
      · exact ⟨p, List.mem_cons_self p _, by rw [overall_confidence_cons, min_eq_left hc]⟩
      · obtain ⟨r, hr, heq⟩ := ih (by simp)
          (fun x hx => hle x (List.mem_cons_of_mem p hx))
        exact ⟨r, List.mem_cons_of_mem p hr,
          by rw [overall_confidence_cons, min_eq_right hc, heq]⟩

/-- The folded overall confidence is a lower bound of all finding
confidences. -/
theorem overall_confidence_lb (pairs : List (Finding × Verdict)) :
    ∀ p ∈ pairs, overall_confidence pairs ≤ p.1.confidence := by
  induction pairs with
  | nil => intro p hp; simp at hp
  | cons q ps ih =>
    intro p hp
    rcases List.mem_cons.mp hp with h | h
    · rw [h, overall_confidence_cons]; exact min_le_left _ _
    · rw [overall_confidence_cons]
      exact le_trans (min_le_right _ _) (ih p h)

/-- Claim C6: for a non-empty session whose finding confidences lie in the
data-model range, the synthesized overall confidence is the minimum
confidence across all findings — attained by one and a lower bound of all. -/
theorem synthesis_overall_confidence_min (pb : ProjectBrief)
    (pairs : List (Finding × Verdict)) (h : pairs ≠ [])
    (hle : ∀ p ∈ pairs, p.1.confidence ≤ 1) :
    (∃ q ∈ pairs, (synthesize pb pairs).overall_confidence = q.1.confidence) ∧
    (∀ p ∈ pairs, (synthesize pb pairs).overall_confidence ≤ p.1.confidence) :=
  ⟨overall_confidence_mem pairs h hle, overall_confidence_lb pairs⟩

/-- Witness for C6 at a concrete two-topic session: the privacy finding's
lower confidence wins. -/
theorem synthesis_overall_confidence_min_w :
    ((∃ q ∈ [(finding_ok, verdict_mitigate), (finding_privacy, verdict_mitigate)],
      (synthesize brief_video
        [(finding_ok, verdict_mitigate), (finding_privacy, verdict_mitigate)]).overall_confidence =
        q.1.confidence) ∧
    (∀ p ∈ [(finding_ok, verdict_mitigate), (finding_privacy, verdict_mitigate)],
      (synthesize brief_video
        [(finding_ok, verdict_mitigate), (finding_privacy, verdict_mitigate)]).overall_confidence ≤
        p.1.confidence)) ∧
    (synthesize brief_video
      [(finding_ok, verdict_mitigate), (finding_privacy, verdict_mitigate)]).overall_confidence =
      finding_privacy.confidence :=
  ⟨synthesis_overall_confidence_min brief_video
    [(finding_ok, verdict_mitigate), (finding_privacy, verdict_mitigate)] (by simp)
    (by intro p hp; rcases List.mem_cons.mp hp with h | h
        · rw [h]; decide
        · simp at h; rw [h]; decide),
   by decide⟩

/-- A fold by a left-commutative operation is invariant under permutation
of the list. -/
theorem foldr_perm_invariant {α β : Type _} (f : α → β → β)
    (hf : ∀ a b c, f a (f b c) = f b (f a c)) {l₁ l₂ : List α}
    (hp : l₁.Perm l₂) : ∀ b, l₁.foldr f b = l₂.foldr f b := by
  induction hp with
  | nil => intro b; rfl
  | cons x _ ih => intro b; simp only [List.foldr_cons]; rw [ih b]
  | swap x y l => intro b; simp only [List.foldr_cons]; rw [hf]
  | trans _ _ ih1 ih2 => intro b; rw [ih1 b, ih2 b]

/-- `vmax` is left-commutative. -/
theorem vmax_left_comm : ∀ a b c : VStatus, vmax a (vmax b c) = vmax b (vmax a c) := by
  intro a b c; cases a <;> cases b <;> cases c <;> decide

/-- The overall status is invariant under permutation of the pairs. -/
theorem overall_status_perm {l₁ l₂ : List (Finding × Verdict)} (hp : l₁.Perm l₂) :
    overall_status l₁ = overall_status l₂ :=
  foldr_perm_invariant _ (fun a b c => vmax_left_comm a.2.status b.2.status c) hp .GO

/-- The combined risk set is invariant under permutation of the pairs. -/
theorem combined_risks_perm {l₁ l₂ : List (Finding × Verdict)} (hp : l₁.Perm l₂) :
    combined_risks l₁ = combined_risks l₂ :=
  foldr_perm_invariant _ (fun a b c => Finset.union_left_comm a.1.risks b.1.risks c) hp ∅

/-- The combined requirement set is invariant under permutation of the
pairs. -/
theorem combined_requirements_perm {l₁ l₂ : List (Finding × Verdict)}
    (hp : l₁.Perm l₂) : combined_requirements l₁ = combined_requirements l₂ :=
  foldr_perm_invariant _
    (fun a b c => Finset.union_left_comm a.1.requirements b.1.requirements c) hp ∅

/-- The overall confidence is invariant under permutation of the pairs. -/
theorem overall_confidence_perm {l₁ l₂ : List (Finding × Verdict)} (hp : l₁.Perm l₂) :
    overall_confidence l₁ = overall_confidence l₂ :=
  foldr_perm_invariant _ (fun a b c => min_left_comm a.1.confidence b.1.confidence c) hp 1

/-- Claim C8: Synthesis is a deterministic pure function of its input set —
permuting the (Finding, Verdict) pairs leaves the DecisionBrief unchanged
(and re-running on the same list trivially reproduces it, the permutation
being reflexive). -/
theorem synthesize_perm (pb : ProjectBrief) {l₁ l₂ : List (Finding × Verdict)}
    (hp : l₁.Perm l₂) : synthesize pb l₁ = synthesize pb l₂ := by
  have hs := overall_status_perm hp
  have hr := combined_risks_perm hp
  have hq := combined_requirements_perm hp
  have hc := overall_confidence_perm hp
  have hf : (l₁.map Prod.fst).toFinset = (l₂.map Prod.fst).toFinset :=
    List.toFinset_eq_of_perm _ _ (hp.map Prod.fst)
  unfold synthesize
  simp only [DecisionBrief.mk.injEq]
  refine ⟨trivial, hf, hr, hq, hs, hc, ?_, ?_⟩
  · unfold needs_human_review; rw [hs, hr]
  · unfold human_review_note; rw [hs, hr]

/-- Witness for C8: swapping two concrete topics leaves the DecisionBrief
unchanged. -/
theorem synthesize_perm_w :
    synthesize brief_video [(finding_ok, verdict_mitigate), (finding_bare, verdict_hold)] =
      synthesize brief_video [(finding_bare, verdict_hold), (finding_ok, verdict_mitigate)] :=
  synthesize_perm brief_video
    (List.Perm.swap (finding_bare, verdict_hold) (finding_ok, verdict_mitigate) [])

/-! ## Orchestrator theorems -/

/-- Claim C7: the bounded loop-back protocol — for any retry budget the
topic run returns the Verdict of some attempt `n` within the budget, all
earlier attempts were HOLD (loop-back happens only on HOLD below the
maximum), and a returned HOLD means the budget was exhausted and the HOLD
was accepted as final; the session then flows into Synthesis and produces
its terminal DecisionBrief. -/
theorem loop_back_bounded (controls : List Control) (pb : ProjectBrief)
    (evaluator : Nat → Finding) (attempt budget : Nat)
    (topics : List (Nat → Finding)) :
    (∃ n ≤ budget,
      run_topic_pair controls pb evaluator attempt budget =
        (evaluator (attempt + n), verdict_at controls pb evaluator (attempt + n)) ∧
      (∀ k < n, (verdict_at controls pb evaluator (attempt + k)).status = .HOLD) ∧
      ((verdict_at controls pb evaluator (attempt + n)).status = .HOLD → n = budget)) ∧
    run_session controls pb topics =
      synthesize pb (topics.map (fun ev => run_topic_pair controls pb ev 0 MAX_RETRIES)) := by
  refine ⟨?_, rfl⟩
  induction budget generalizing attempt with
  | zero =>
    refine ⟨0, Nat.le_refl 0, ?_, ?_, ?_⟩
    · simp [run_topic_pair]
    · intro k hk; omega
    · intro _; rfl
  | succ b ih =>
    by_cases h : (verdict_at controls pb evaluator attempt).status = .HOLD
    · obtain ⟨n, hn, heq, hall, hfin⟩ := ih (attempt + 1)
      have harith : attempt + 1 + n = attempt + (n + 1) := by omega
      rw [harith] at heq
      refine ⟨n + 1, by omega, ?_, ?_, ?_⟩
      · rw [run_topic_pair]
        simp only [h, if_pos]
        exact heq
      · intro k hk
        rcases k with _ | k
        · simpa using h
        · have := hall k (by omega)
          have harith2 : attempt + 1 + k = attempt + (k + 1) := by omega
          rwa [harith2] at this
      · intro hh
        have := hfin (by rwa [harith])
        omega
    · refine ⟨0, Nat.zero_le _, ?_, ?_, ?_⟩
      · rw [run_topic_pair]
        simp only [h, if_neg, ite_false]
        simp
      · intro k hk; omega
      · intro hh; exact absurd (by simpa using hh) h

/-! ## UI theorems -/

/-- Claim C10: `runAnalysis` never issues a request without a selected
zone — with `selectedZone` null it returns early (no POST) and the submit
button is disabled — and every payload it does build carries the selected
zone's id together with exactly the enabled goals. -/
theorem run_analysis_guard (goals : List Goal) (sz : Option Zone) (b : Bool) :
    (sz = none → run_analysis_request sz goals = none ∧
      run_button_disabled sz b = true) ∧
    (∀ p, run_analysis_request sz goals = some p →
      ∃ z, sz = some z ∧ p.zone_id = z.zone_id ∧
        p.goals = goals.filter (fun g => g.enabled) ∧
        ∀ g ∈ p.goals, g.enabled = true) := by
  constructor
  · rintro rfl
    exact ⟨rfl, rfl⟩
  · intro p hp
    rcases sz with _ | z
    · exact absurd hp (by simp [run_analysis_request])
    · refine ⟨z, rfl, ?_, ?_, ?_⟩
      · have : p = build_payload z goals := by
          simpa [run_analysis_request] using hp.symm
        rw [this]; rfl
      · have : p = build_payload z goals := by
          simpa [run_analysis_request] using hp.symm
        rw [this]; rfl
      · have : p = build_payload z goals := by
          simpa [run_analysis_request] using hp.symm
        rw [this]
        intro g hg
        exact (List.mem_filter.mp hg).2

/-- Witness for C10: the concrete initial goal list of the page, one goal
toggled off, and a concrete zone. -/
theorem run_analysis_guard_w :
    (run_analysis_request none
        [⟨"Safety", "Increase student safety at night", "High", true⟩,
         ⟨"Energy", "Reduce campus carbon footprint", "High", false⟩] = none ∧
      run_button_disabled none false = true) ∧
    ∃ z, some (⟨"fau-eng", "Engineering Lab Parking", "High pedestrian traffic"⟩ : Zone) =
        some z ∧
      (build_payload ⟨"fau-eng", "Engineering Lab Parking", "High pedestrian traffic"⟩
        [⟨"Safety", "Increase student safety at night", "High", true⟩,
         ⟨"Energy", "Reduce campus carbon footprint", "High", false⟩]).zone_id = z.zone_id ∧
      (build_payload ⟨"fau-eng", "Engineering Lab Parking", "High pedestrian traffic"⟩
        [⟨"Safety", "Increase student safety at night", "High", true⟩,
         ⟨"Energy", "Reduce campus carbon footprint", "High", false⟩]).goals =
        List.filter (fun g => g.enabled)
          [⟨"Safety", "Increase student safety at night", "High", true⟩,
           ⟨"Energy", "Reduce campus carbon footprint", "High", false⟩] ∧
      ∀ g ∈ (build_payload ⟨"fau-eng", "Engineering Lab Parking", "High pedestrian traffic"⟩
        [⟨"Safety", "Increase student safety at night", "High", true⟩,
         ⟨"Energy", "Reduce campus carbon footprint", "High", false⟩]).goals,
        g.enabled = true :=
  ⟨(run_analysis_guard
      [⟨"Safety", "Increase student safety at night", "High", true⟩,
       ⟨"Energy", "Reduce campus carbon footprint", "High", false⟩] none false).1 rfl,
   (run_analysis_guard
      [⟨"Safety", "Increase student safety at night", "High", true⟩,
       ⟨"Energy", "Reduce campus carbon footprint", "High", false⟩]
      (some ⟨"fau-eng", "Engineering Lab Parking", "High pedestrian traffic"⟩) false).2
      _ rfl⟩

/-! ## SSE parsing theorems -/

/-- The split of a buffer is never the empty list of parts, exactly as the
JavaScript `split` never returns an empty array. -/
theorem split_events_ne_nil (l : List Char) : split_events l ≠ [] := by
  induction l using split_events.induct with
  | case1 => simp [split_events]
  | case2 c => simp [split_events]
  | case3 c1 c2 rest h ih =>
    obtain ⟨h1, h2⟩ := h
    subst h1; subst h2
    simp [split_events]
  | case4 c1 c2 rest h hnil ih => simp [split_events, h, hnil]
  | case5 c1 c2 rest h l ls hcons ih => simp [split_events, h, hcons]

/-- A buffer that splits into a single part is that part: it contains no
separator. -/
theorem split_events_eq_singleton (l : List Char) :
    ∀ h, split_events l = [h] → h = l := by
  induction l using split_events.induct with
  | case1 =>
    intro h he
    simp [split_events] at he
    exact he
  | case2 c =>
    intro h he
    simp [split_events] at he
    exact he.symm
  | case3 c1 c2 rest hc ih =>
    intro h he
    obtain ⟨h1, h2⟩ := hc
    subst h1; subst h2
    simp [split_events] at he
    exact absurd he.2 (split_events_ne_nil rest)
  | case4 c1 c2 rest hc hnil ih => exact absurd hnil (split_events_ne_nil _)
  | case5 c1 c2 rest hc l ls hcons ih =>
    intro h he
    rw [split_events, if_neg hc, hcons] at he
    simp at he
    obtain ⟨hh, hls⟩ := he
    subst hls
    rw [← hh, ih l hcons]

/-- The default of `getLastD` is irrelevant on a non-empty list. -/
theorem getLastD_cons_irrel {α : Type _} (a : α) (l : List α) (d d' : α) :
    (a :: l).getLastD d = (a :: l).getLastD d' := by
  rw [List.getLastD_cons, List.getLastD_cons]

/-- The last element of an append with a non-empty right part is the right
part's last element. -/
theorem getLastD_append_right {α : Type _} (B : List α) (hB : B ≠ []) :
    ∀ (A : List α) (d : α), (A ++ B).getLastD d = B.getLastD d := by
  intro A
  induction A with
  | nil => intro d; rfl
  | cons a A ih =>
    intro d
    rw [List.cons_append, List.getLastD_cons, ih a]
    rcases B with _ | ⟨b0, B'⟩
    · exact absurd rfl hB
    · exact getLastD_cons_irrel b0 B' a d

/-- The default of `getLast?.getD` is irrelevant on a non-empty list. -/
theorem getLast?_getD_irrel {α : Type _} (a : α) (l : List α) (d d' : α) :
    (a :: l).getLast?.getD d = (a :: l).getLast?.getD d' := by
  rw [← List.getLastD_eq_getLast?, ← List.getLastD_eq_getLast?,
    List.getLastD_cons, List.getLastD_cons]

/-- Streaming decomposition of the split: splitting a concatenation is
splitting the left part, keeping its trailing incomplete piece, and
re-splitting that piece glued to the right part — exactly what the SSE
loop's buffer does across reads. -/
theorem split_events_append (y : List Char) :
    ∀ x, split_events (x ++ y) =
      (split_events x).dropLast ++
        split_events ((split_events x).getLastD [] ++ y) := by
  intro x
  induction x using split_events.induct with
  | case1 => simp [split_events]
  | case2 c => simp [split_events]
  | case3 c1 c2 rest hc ih =>
    obtain ⟨h1, h2⟩ := hc
    subst h1; subst h2
    obtain ⟨s0, sr, hs⟩ : ∃ s0 sr, split_events rest = s0 :: sr := by
      cases hsr : split_events rest with
      | nil => exact absurd hsr (split_events_ne_nil rest)
      | cons a as => exact ⟨a, as, rfl⟩
    have lh : ('\n' :: '\n' :: rest) ++ y = '\n' :: '\n' :: (rest ++ y) := rfl
    rw [lh]
    have h1 : split_events ('\n' :: '\n' :: (rest ++ y)) = [] :: split_events (rest ++ y) := by
      simp [split_events]
    have h2 : split_events ('\n' :: '\n' :: rest) = [] :: split_events rest := by
      simp [split_events]
    rw [h1, h2, ih, hs]
    simp [List.getLastD_cons]
  | case4 c1 c2 rest hc hnil ih => exact absurd hnil (split_events_ne_nil _)
  | case5 c1 c2 rest hc l0 ls hcons ih =>
    have hx : split_events (c1 :: c2 :: rest) =
        (c1 :: l0) :: ls := by
      simp only [split_events]
      rw [if_neg hc, hcons]
    have lh : (c1 :: c2 :: rest) ++ y = c1 :: ((c2 :: rest) ++ y) := rfl
    rcases ls with _ | ⟨m, ms⟩
    · have hl0 : l0 = c2 :: rest := split_events_eq_singleton _ l0 hcons
      subst hl0
      rw [hx]
      simp
    · have hinner : split_events ((c2 :: rest) ++ y) =
          l0 :: ((m :: ms).dropLast ++
            split_events ((m :: ms).getLastD l0 ++ y)) := by
        rw [ih, hcons]
        simp [List.getLastD_cons]
        rw [getLast?_getD_irrel m ms [] l0]
      have hlhs : split_events ((c1 :: c2 :: rest) ++ y) =
          (c1 :: l0) :: ((m :: ms).dropLast ++
            split_events ((m :: ms).getLastD l0 ++ y)) := by
        rw [lh]
        have : c1 :: ((c2 :: rest) ++ y) = c1 :: (c2 :: (rest ++ y)) := by simp
        rw [this]
        simp only [split_events]
        rw [if_neg hc]
        rw [← List.cons_append, hinner]
      rw [hlhs, hx]
      simp [List.getLastD_cons]
      rw [getLast?_getD_irrel m ms l0 []]

/-- The trailing incomplete part kept in the buffer contains no separator:
re-splitting it yields it back unchanged. -/
theorem split_events_last_free (l : List Char) :
    split_events ((split_events l).getLastD []) =
      [(split_events l).getLastD []] := by
  induction l using split_events.induct with
  | case1 => simp [split_events]
  | case2 c => simp [split_events]
  | case3 c1 c2 rest hc ih =>
    obtain ⟨h1, h2⟩ := hc
    subst h1; subst h2
    have hu : split_events ('\n' :: '\n' :: rest) = [] :: split_events rest := by
      simp [split_events]
    obtain ⟨s0, sr, hs⟩ : ∃ s0 sr, split_events rest = s0 :: sr := by
      cases hsr : split_events rest with
      | nil => exact absurd hsr (split_events_ne_nil rest)
      | cons a as => exact ⟨a, as, rfl⟩
    rw [hu, hs]
    rw [hs] at ih
    simpa [List.getLastD_cons] using ih
  | case4 c1 c2 rest hc hnil ih => exact absurd hnil (split_events_ne_nil _)
  | case5 c1 c2 rest hc l0 ls hcons ih =>
    have hx : split_events (c1 :: c2 :: rest) = (c1 :: l0) :: ls := by
      simp only [split_events]
      rw [if_neg hc, hcons]
    rcases ls with _ | ⟨m, ms⟩
    · have hl0 : l0 = c2 :: rest := split_events_eq_singleton _ l0 hcons
      subst hl0
      rw [hx]
      simpa using hx
    · rw [hx]
      rw [hcons] at ih
      have he : ((c1 :: l0) :: m :: ms).getLastD ([] : List Char) =
          (l0 :: m :: ms).getLastD [] := by
        conv_lhs => rw [List.getLastD_cons]
        conv_rhs => rw [List.getLastD_cons]
        exact getLastD_cons_irrel m ms (c1 :: l0) l0
      rw [he]
      exact ih

/-- Processing one line appends exactly the payload the line contributes. -/
theorem process_line_eq {E : Type _} (parse : String → Option E) (evs : List E)
    (line : List Char) :
    process_line parse evs line = evs ++ (data_payload parse line).toList := by
  unfold process_line data_payload
  by_cases h : line.take 6 = data_tag
  · rw [if_pos h, if_pos h]
    cases hp : parse (String.mk (line.drop 6)) <;> simp
  · rw [if_neg h, if_neg h]
    simp

/-- Folding the line processor over complete lines appends exactly the
parse successes of the `data: `-prefixed lines, in order; malformed
payloads are skipped and processing continues. -/
theorem foldl_process_line {E : Type _} (parse : String → Option E) :
    ∀ (lines : List (List Char)) (evs : List E),
      lines.foldl (process_line parse) evs =
        evs ++ lines.filterMap (data_payload parse) := by
  intro lines
  induction lines with
  | nil => intro evs; simp
  | cons l ls ih =>
    intro evs
    rw [List.foldl_cons, ih, process_line_eq, List.filterMap_cons]
    cases h : data_payload parse l <;> simp [h]

/-- One read of the SSE loop: the new buffer is the trailing incomplete
part and exactly the complete lines' parse successes are appended. -/
theorem process_chunk_eq {E : Type _} (parse : String → Option E) (buf : List Char)
    (evs : List E) (chunk : List Char) :
    process_chunk parse (buf, evs) chunk =
      ((split_events (buf ++ chunk)).getLastD [],
       evs ++ (split_events (buf ++ chunk)).dropLast.filterMap (data_payload parse)) := by
  show ((split_events (buf ++ chunk)).getLastD [],
    (split_events (buf ++ chunk)).dropLast.foldl (process_line parse) evs) = _
  rw [foldl_process_line]

/-- Invariant of the read loop: starting from a separator-free buffer, the
loop state equals the split of everything received so far. -/
theorem run_sse_flatten_aux {E : Type _} (parse : String → Option E) :
    ∀ (chunks : List (List Char)) (buf : List Char) (evs : List E),
      split_events buf = [buf] →
      chunks.foldl (process_chunk parse) (buf, evs) =
        ((split_events (buf ++ chunks.flatten)).getLastD [],
         evs ++ (split_events (buf ++ chunks.flatten)).dropLast.filterMap
           (data_payload parse)) := by
  intro chunks
  induction chunks with
  | nil =>
    intro buf evs hbuf
    simp [hbuf]
  | cons c cs ih =>
    intro buf evs hbuf
    rw [List.foldl_cons, process_chunk_eq]
    rw [ih _ _ (split_events_last_free (buf ++ c))]
    have hassoc : buf ++ (c :: cs).flatten = (buf ++ c) ++ cs.flatten := by
      rw [List.flatten_cons, ← List.append_assoc]
    have hne : split_events ((split_events (buf ++ c)).getLastD [] ++ cs.flatten) ≠ [] :=
      split_events_ne_nil _
    conv_rhs => rw [hassoc, split_events_append cs.flatten (buf ++ c)]
    rw [Prod.mk.injEq]
    constructor
    · exact (getLastD_append_right _ hne _ []).symm
    · rw [List.dropLast_append_of_ne_nil _ hne, List.filterMap_append, List.append_assoc]

/-- Claim C9: the SSE parsing loop of `runAnalysis` is total and
order-preserving — over any sequence of received chunks it ends with the
events list holding exactly the parse successes of the complete
`data: `-prefixed lines of the whole stream, in arrival order (a malformed
payload is skipped without affecting later ones), and the buffer holding
the trailing incomplete part. -/
theorem run_sse_events {E : Type _} (parse : String → Option E)
    (chunks : List (List Char)) :
    run_sse parse chunks =
      ((split_events chunks.flatten).getLastD [],
       (split_events chunks.flatten).dropLast.filterMap (data_payload parse)) := by
  unfold run_sse
  have h := run_sse_flatten_aux parse chunks [] [] (by simp [split_events])
  simpa using h

end SmartCity
